import Mathlib

/-!
# Verification of `jsnathan/log`: level filtering and module overrides

A shallow embedding of `log.go`: the severity constants, the alias table
`logLevelMap`, the two override tables with `MuteModuleToLevel` and
`TurnUpModuleToLevel`, the filter decision of `Output`, the unfiltered
`Warn`/`Error`/`Fatal`, the directive parsing of `EnableLogging`, the loggers
built by `initZapLogger` and `DisableLogging`, and of `loghub_sink.go`: the
writer `LoghubWriter.Write` with its delivery routine.

Modelling choices.
* The package-level variables `activeLogLevel`, `moduleWhitelist` and
  `moduleBlacklist` are the fields of an explicit `State`.
* A call of a method of the global logger `Log` is recorded as a `LogCall`;
  a function that may log returns the list of the calls it made, in order.
* Go strings are lists of Unicode code points; Go maps are association lists
  with unique keys (`AList`), read only through `lookup` and their size.
* Lines printed with `fmt.Println`/`fmt.Printf` are not part of the state.
* The variable `Log` is a `Logger`: a list of zap cores, each a sink with a
  level enabler; a core receives an entry exactly when its enabler accepts
  the entry's level.
* The goroutine of `LoghubWriter.Write` is a function of the behaviour of the
  HTTP client; its effects are recorded beside the values `Write` returns.
-/

namespace Log

/-! ## Strings -/

/-- Go `string` values, as sequences of code points. -/
abbrev GoString := List Char

/-- Go `unicode.IsSpace`: the Latin-1 spaces and the code points with the
Unicode White_Space property. -/
def isSpace (c : Char) : Bool :=
  let n := c.toNat
  n = 0x09 || n = 0x0A || n = 0x0B || n = 0x0C || n = 0x0D || n = 0x20 ||
  n = 0x85 || n = 0xA0 || n = 0x1680 || (0x2000 ≤ n && n ≤ 0x200A) ||
  n = 0x2028 || n = 0x2029 || n = 0x202F || n = 0x205F || n = 0x3000

/-- Go `strings.TrimSpace`: drop leading and trailing white space. -/
def TrimSpace (s : GoString) : GoString :=
  (s.dropWhile isSpace).rdropWhile isSpace

/-- Go `strings.Trim(s, cutset)`: drop leading and trailing code points that
occur in `cutset`. -/
def Trim (s cutset : GoString) : GoString :=
  (s.dropWhile (fun c => decide (c ∈ cutset))).rdropWhile (fun c => decide (c ∈ cutset))

/-- Go `strings.Split(s, sep)` for a one-character separator: the pieces of
`s` between the occurrences of `sep`; always at least one piece. -/
def Split : GoString → Char → List GoString
  | [], _ => [[]]
  | c :: cs, sep =>
    if c = sep then [] :: Split cs sep
    else
      match Split cs sep with
      | [] => [[c]]
      | piece :: pieces => (c :: piece) :: pieces

/-- Go `strings.IndexByte(s, c)`: the index of the first `c` in `s`, or `-1`. -/
def IndexByte (s : GoString) (c : Char) : Int :=
  if c ∈ s then (s.indexOf c : Nat) else -1

/-! ## Levels (`log.go` lines 18-26) -/

/-- The type `zapcore.Level` (an `int8`); the code only compares levels. -/
abbrev Level := Int

/-- The constant `zapcore.DebugLevel` of the zap library. -/
def zapcoreDebugLevel : Level := -1

def VerboseLevel : Level := zapcoreDebugLevel - 1 + 0
def DebugLevel : Level := zapcoreDebugLevel - 1 + 1
def SuccessLevel : Level := zapcoreDebugLevel - 1 + 2
def InfoLevel : Level := zapcoreDebugLevel - 1 + 3
def WarnLevel : Level := zapcoreDebugLevel - 1 + 4
def ErrorLevel : Level := zapcoreDebugLevel - 1 + 5
def FatalLevel : Level := zapcoreDebugLevel - 1 + 6

/-- The map literal `logLevelMap` (lines 39-63), keys in source order. -/
def logLevelMap : List (GoString × Level) :=
  [ ("v".toList, VerboseLevel),
    ("verbose".toList, VerboseLevel),
    ("d".toList, DebugLevel),
    ("dbg".toList, DebugLevel),
    ("debug".toList, DebugLevel),
    ("success".toList, SuccessLevel),
    ("ok".toList, SuccessLevel),
    ("standard".toList, InfoLevel),
    ("std".toList, InfoLevel),
    ("info".toList, InfoLevel),
    ("w".toList, WarnLevel),
    ("warn".toList, WarnLevel),
    ("warning".toList, WarnLevel),
    ("warnings".toList, WarnLevel),
    ("e".toList, ErrorLevel),
    ("err".toList, ErrorLevel),
    ("error".toList, ErrorLevel),
    ("errors".toList, ErrorLevel) ]

/-- The lookup `logLevelMap[strings.TrimSpace(tok)]` of lines 78 and 91:
`some lvl` when `ok` is true, `none` when it is false. -/
def lookupLevel (tok : GoString) : Option Level :=
  logLevelMap.lookup (TrimSpace tok)

/-! ## State and override tables (lines 28, 115-126) -/

/-- A Go `map[string]zapcore.Level`. -/
abbrev Table := AList (fun _ : GoString => Level)

/-- The package-level variables read by the filter. -/
structure State where
  activeLogLevel : Level
  moduleWhitelist : Table
  moduleBlacklist : Table

/-- The variables as initialised at lines 28, 115 and 116. -/
def State.initial : State :=
  { activeLogLevel := DebugLevel, moduleWhitelist := ∅, moduleBlacklist := ∅ }

/-- `SetLogLevel` (lines 100-102). -/
def SetLogLevel (st : State) (lvl : Level) : State :=
  { st with activeLogLevel := lvl }

/-- `MuteModuleToLevel` (lines 118-121). -/
def MuteModuleToLevel (st : State) (module : GoString) (logLevel : Level) : State :=
  { st with moduleBlacklist := st.moduleBlacklist.insert module logLevel }

/-- `TurnUpModuleToLevel` (lines 122-126). -/
def TurnUpModuleToLevel (st : State) (module : GoString) (logLevel : Level) : State :=
  { st with
    moduleBlacklist := st.moduleBlacklist.erase module
    moduleWhitelist := st.moduleWhitelist.insert module logLevel }

/-! ## Logging calls (lines 128-178) -/

/-- A value of type `interface{}` in an attribute sequence: a string, or a
value of any other dynamic type. -/
inductive Value where
  | str (s : GoString)
  | other (tag : Nat)
  deriving DecidableEq, Repr

/-- The methods of `Log` the package calls. -/
inductive Method where
  | Debugw
  | Warnw
  | Errorw
  | Fatalw
  deriving DecidableEq, Repr

/-- One call `Log.<method>(msg, keysAndValues...)`. -/
structure LogCall where
  method : Method
  msg : GoString
  keysAndValues : List Value
  deriving DecidableEq, Repr

/-- `Output` (lines 153-178). The result is the list of calls made on `Log`:
empty when the function returns without logging. -/
def Output (st : State) (logLevel : Level) (msg : GoString)
    (keysAndValues : List Value) : List LogCall :=
  let threshold : List LogCall :=
    if st.activeLogLevel > logLevel then [] else [⟨.Debugw, msg, keysAndValues⟩]
  if keysAndValues.length ≥ 2 ∧ st.moduleBlacklist.entries.length > 0 then
    match keysAndValues with
    | .str k :: .str v :: _ =>
      if k = "func".toList then
        let idx := IndexByte v '.'
        if idx ≠ -1 then
          let module := v.take idx.toNat
          let whitelisted : List LogCall :=
            match st.moduleWhitelist.lookup module with
            | some whitelistedLevel =>
              if logLevel ≥ whitelistedLevel then [⟨.Debugw, msg, keysAndValues⟩]
              else threshold
            | none => threshold
          match st.moduleBlacklist.lookup module with
          | some blacklistedLevel =>
            if logLevel ≤ blacklistedLevel then [] else whitelisted
          | none => whitelisted
        else threshold
      else threshold
    | _ => threshold
  else threshold

def Verbose (st : State) (msg : GoString) (keysAndValues : List Value) : List LogCall :=
  Output st VerboseLevel msg keysAndValues

def Debug (st : State) (msg : GoString) (keysAndValues : List Value) : List LogCall :=
  Output st DebugLevel msg keysAndValues

def Success (st : State) (msg : GoString) (keysAndValues : List Value) : List LogCall :=
  Output st SuccessLevel msg keysAndValues

def Info (st : State) (msg : GoString) (keysAndValues : List Value) : List LogCall :=
  Output st InfoLevel msg keysAndValues

/-- `Warn` (lines 140-142): one call of `Log.Warnw`; no variable of the
state is read. -/
def Warn (_st : State) (msg : GoString) (keysAndValues : List Value) : List LogCall :=
  [⟨.Warnw, msg, keysAndValues⟩]

/-- `Error` (lines 143-145). -/
def Error (_st : State) (msg : GoString) (keysAndValues : List Value) : List LogCall :=
  [⟨.Errorw, msg, keysAndValues⟩]

/-- `Fatal` (lines 146-148). -/
def Fatal (_st : State) (msg : GoString) (keysAndValues : List Value) : List LogCall :=
  [⟨.Fatalw, msg, keysAndValues⟩]

/-! ## Directive parsing (`EnableLogging`, lines 70-97) -/

/-- The body of the loop over the whitelist entries (lines 73-83). -/
def whitelistEntry (st : State) (s : GoString) : State :=
  let f := Split s '='
  if f.length < 2 then st
  else
    let module := TrimSpace (f.getD 0 [])
    match lookupLevel (f.getD 1 []) with
    | none => st
    | some lvl => TurnUpModuleToLevel st module lvl

/-- The body of the loop over the blacklist entries (lines 86-96). -/
def blacklistEntry (st : State) (s : GoString) : State :=
  let f := Split s '='
  if f.length < 2 then st
  else
    let module := TrimSpace (f.getD 0 [])
    match lookupLevel (f.getD 1 []) with
    | none => st
    | some lvl => MuteModuleToLevel st module lvl

/-- The loop of lines 72-84 over `strings.Split(whitelist, ",")`. -/
def whitelistLoop (st : State) (whitelist : GoString) : State :=
  (Split whitelist ',').foldl whitelistEntry st

/-- The loop of lines 85-97 over `strings.Split(blacklist, ",")`. -/
def blacklistLoop (st : State) (blacklist : GoString) : State :=
  (Split blacklist ',').foldl blacklistEntry st

/-- The cutset of the two `strings.Trim` calls: a double and a single quote. -/
def quoteCutset : GoString := [Char.ofNat 0x22, Char.ofNat 0x27]

/-- Lines 70-97 of `EnableLogging`: the two `strings.Trim` calls and the two
loops, given the values of the environment variables `LOG_WHITELIST` and
`LOG_BLACKLIST`. -/
def EnableLogging.directives (st : State) (envWhitelist envBlacklist : GoString) : State :=
  let whitelist := Trim envWhitelist quoteCutset
  let blacklist := Trim envBlacklist quoteCutset
  blacklistLoop (whitelistLoop st whitelist) blacklist


/-! ## Histories of registration calls -/

/-- One registration call on the override tables. -/
inductive Call where
  | mute (module : GoString) (logLevel : Level)
  | turnUp (module : GoString) (logLevel : Level)
  deriving DecidableEq, Repr

/-- The module a registration call names. -/
def Call.module : Call → GoString
  | .mute m _ => m
  | .turnUp m _ => m

/-- Perform one registration call. -/
def Call.apply (st : State) : Call → State
  | .mute m l => MuteModuleToLevel st m l
  | .turnUp m l => TurnUpModuleToLevel st m l

/-- Perform a sequence of registration calls, first to last. -/
def runCalls (st : State) (calls : List Call) : State :=
  calls.foldl Call.apply st

/-- A state with both tables empty and threshold `t`. -/
def State.emptyTables (t : Level) : State :=
  { activeLogLevel := t, moduleWhitelist := ∅, moduleBlacklist := ∅ }

/-! ## Directive lists without their malformed entries -/

/-- Go `strings.Join(pieces, sep)` for a one-character separator. -/
def Join : List GoString → Char → GoString
  | [], _ => []
  | [e], _ => e
  | e :: e' :: es, sep => e ++ sep :: Join (e' :: es) sep

/-- A directive that is malformed in the sense of the specification: it has
no `=`, or the token after its first `=` is not a recognised level. -/
def malformedEntry (e : GoString) : Bool :=
  !(decide ('=' ∈ e)) || (lookupLevel ((Split e '=').getD 1 [])).isNone

/-- The entries of a comma-separated directive list that are not malformed,
in order. -/
def wellFormedEntries (list : GoString) : List GoString :=
  (Split list ',').filter (fun e => !malformedEntry e)

/-- A comma-separated directive list with its malformed entries removed. -/
def withoutMalformed (list : GoString) : GoString :=
  Join ((Split list ',').filter (fun e => !malformedEntry e)) ','

/-- The module a directive `module=levelToken` names: the text before its
first `=`, without surrounding white space. -/
def directiveModule (e : GoString) : GoString :=
  TrimSpace ((Split e '=').getD 0 [])

/-- The level a directive `module=levelToken` names: the level of the token
after its first `=` (for a malformed directive, of no use, `0`). -/
def directiveLevel (e : GoString) : Level :=
  (lookupLevel ((Split e '=').getD 1 [])).getD 0

/-! ## The logger behind `Log` (zap), `DisableLogging` and `initZapLogger` -/

/-- The severity zap gives to an entry logged through a method of
`SugaredLogger`: `zapcore.DebugLevel = -1`, `WarnLevel = 1`, `ErrorLevel = 2`,
`FatalLevel = 5`. -/
def Method.zapLevel : Method → Level
  | .Debugw => zapcoreDebugLevel
  | .Warnw => zapcoreDebugLevel + 2
  | .Errorw => zapcoreDebugLevel + 3
  | .Fatalw => zapcoreDebugLevel + 6

/-- The output targets a core can be built on. -/
inductive Sink where
  | console
  | loghub
  | sentry
  deriving DecidableEq, Repr

/-- A zap core as the package builds it: `zapcore.NewCore(enc, sink, enab)`
or `zapsentry.NewCore(enab, client)`, with `enab` a `zap.LevelEnablerFunc`. -/
structure Core where
  sink : Sink
  enabler : Level → Bool

/-- The value of the variable `Log`: the cores of `zap.New(core)`, a single
core or the members of a `zapcore.NewTee`. -/
structure Logger where
  cores : List Core

/-- An entry zap hands to the cores. -/
structure Entry where
  level : Level
  msg : GoString
  fields : List Value
  deriving DecidableEq, Repr

/-- The sinks of a logger, in order. -/
def Logger.sinks (lg : Logger) : List Sink :=
  lg.cores.map Core.sink

/-- The writes an entry causes: zap writes an entry to a core exactly when the
core's level enabler accepts the entry's level. -/
def Logger.write (lg : Logger) (e : Entry) : List (Sink × Entry) :=
  (lg.cores.filter (fun c => c.enabler e.level)).map (fun c => (c.sink, e))

/-- The writes caused by a list of calls on the logger `lg`. Which entries
zap derives from one call (the entry of the call, and zap's own complaint
entries when the attribute sequence has a dangling key or a key that is not a
string) is decided inside zap: it is the parameter `entriesOf`. -/
def Logger.handle (lg : Logger) (entriesOf : LogCall → List Entry)
    (calls : List LogCall) : List (Sink × Entry) :=
  (((calls.map entriesOf).flatten).map lg.write).flatten

/-- The enabler `allLogs` of `initZapLogger` (lines 187-190). -/
def allLogs : Level → Bool := fun _ => true

/-- The enabler `noLogs` of `DisableLogging` (lines 105-107). -/
def noLogs : Level → Bool := fun _ => false

/-- `DisableLogging` (lines 104-113): the logger assigned to `Log`. -/
def DisableLogging : Logger :=
  { cores := [{ sink := .console, enabler := noLogs }] }

/-- `initZapLogger` (lines 180-244): the logger assigned to `Log`, or `none`
when the function panics. `envSentrySink` is the value of the environment
variable `SENTRY_SINK`; `ravenNew dsn` tells whether `raven.New(dsn)` returns
without error. -/
def initZapLogger (withLoghub withSentry : Bool) (envSentrySink : GoString)
    (ravenNew : GoString → Bool) : Option Logger :=
  if withLoghub then
    some { cores := [{ sink := .console, enabler := allLogs },
                     { sink := .loghub, enabler := allLogs }] }
  else if withSentry then
    if envSentrySink = [] then none
    else if ravenNew (Trim envSentrySink [Char.ofNat 0x27]) then
      some { cores := [{ sink := .console, enabler := allLogs },
                       { sink := .sentry, enabler := allLogs }] }
    else none
  else
    some { cores := [{ sink := .console, enabler := allLogs }] }

/-- `EnableLogging` (lines 65-98): `none` when `initZapLogger` panics, else
the logger assigned to `Log` and the state after the two loops. The
arguments are the values of the environment variables `LOGHUB_SINK`,
`SENTRY_SINK`, `LOG_WHITELIST` and `LOG_BLACKLIST`, and the behaviour of
`raven.New`. -/
def EnableLogging (st : State)
    (envLoghubSink envSentrySink envWhitelist envBlacklist : GoString)
    (ravenNew : GoString → Bool) : Option (Logger × State) :=
  match initZapLogger (decide (envLoghubSink = "enabled".toList))
      (decide (envSentrySink ≠ [])) envSentrySink ravenNew with
  | none => none
  | some lg => some (lg, EnableLogging.directives st envWhitelist envBlacklist)

/-! ## The remote sink (`loghub_sink.go`, lines 24-46) -/

/-- A Go `[]byte`. -/
abbrev Bytes := List UInt8

/-- One call `w.client.Post(url, contentType, body)`. -/
structure Request where
  url : GoString
  contentType : GoString
  body : Bytes
  deriving DecidableEq, Repr

/-- What the call of `w.client.Post` does: it returns an error, returns a
response (status code, and the body as `ioutil.ReadAll` reads it), or panics. -/
inductive PostOutcome where
  | transportError (err : GoString)
  | response (statusCode : Int) (body : Bytes)
  | fault (value : GoString)
  deriving DecidableEq, Repr

/-- A line written with `stdlog.Printf` by the delivery routine. -/
inductive Diagnostic where
  | preSend (err : GoString)
  | badStatus (statusCode : Int) (reply : Bytes)
  | recovered (value : GoString)
  deriving DecidableEq, Repr

/-- The effects of one run of the delivery routine. -/
structure Delivery where
  requests : List Request
  diagnostics : List Diagnostic
  deriving DecidableEq, Repr

/-- The function literal started with `go` at lines 27-44, run against the
behaviour `post` of the HTTP client: one `Post` of the buffer, then the
`stdlog.Printf` of the matching branch; a panic is caught by the deferred
`recover` and logged. -/
def deliveryRoutine (loghubEndpoint : GoString) (buf : Bytes)
    (post : Request → PostOutcome) : Delivery :=
  let req : Request := { url := loghubEndpoint, contentType := "text/plain".toList, body := buf }
  match post req with
  | .transportError err => { requests := [req], diagnostics := [.preSend err] }
  | .response statusCode body =>
    if statusCode ≠ 200 then
      { requests := [req], diagnostics := [.badStatus statusCode body] }
    else { requests := [req], diagnostics := [] }
  | .fault value => { requests := [req], diagnostics := [.recovered value] }

/-- Go `(*bytes.Buffer).Write(p)` on a buffer holding `buf`: the new
contents, `n = len(p)` and a nil error. -/
def bufferWrite (buf p : Bytes) : Bytes × Int × Option GoString :=
  (buf ++ p, (p.length : Int), none)

/-- The result of `LoghubWriter.Write`: the returned `n` and `err`, and the
effects of the goroutine it started. -/
structure WriteResult where
  n : Int
  err : Option GoString
  background : Delivery
  deriving DecidableEq, Repr

/-- `LoghubWriter.Write` (lines 24-46). The returned pair is the result of
`buf.Write(line)`; the variables `err` assigned inside the function literal
are declared there and are not the named result. -/
def LoghubWriter.Write (loghubEndpoint : GoString) (post : Request → PostOutcome)
    (line : Bytes) : WriteResult :=
  let w := bufferWrite [] line
  { n := w.2.1, err := w.2.2, background := deliveryRoutine loghubEndpoint w.1 post }

/-- The failures the specification names for a delivery: the post returned a
transport error, or a response whose status is not 200. -/
def PostOutcome.returnedFailure : PostOutcome → Bool
  | .transportError _ => true
  | .response statusCode _ => decide (statusCode ≠ 200)
  | .fault _ => false

/-! ## The filter decision as the specification words it -/

/-- The module of the gate: defined when the suppress table is non-empty, the
attributes have at least two elements, the first is the string `"func"` and
the second a string containing a dot; it is then the part of that string
before its first dot. -/
def gateModule (st : State) (attrs : List Value) : Option GoString :=
  match attrs with
  | .str k :: .str v :: _ =>
    if st.moduleBlacklist.entries.length ≠ 0 ∧ k = "func".toList ∧ '.' ∈ v then
      some (v.takeWhile (fun c => c != '.'))
    else none
  | _ => none

/-- The decision of the specification: not suppressed through the gate, and
force-allowed through the gate or let through by the threshold. -/
def specAccepts (st : State) (l : Level) (attrs : List Value) : Bool :=
  let suppressed : Bool :=
    match gateModule st attrs with
    | some m =>
      (match st.moduleBlacklist.lookup m with
       | some L => decide (l ≤ L)
       | none => false)
    | none => false
  let forced : Bool :=
    match gateModule st attrs with
    | some m =>
      (match st.moduleWhitelist.lookup m with
       | some L => decide (l ≥ L)
       | none => false)
    | none => false
  !suppressed && (forced || decide (st.activeLogLevel ≤ l))

/-! ## Concrete inputs used in the examples below -/

def kFunc : GoString := "func".toList
def mFoo : GoString := "foo".toList
def mBar : GoString := "bar".toList
def symBar : GoString := "Bar".toList
def msgHello : GoString := "hello".toList

/-- Threshold `Error`, `foo` force-allowed from `Debug`, nothing suppressed. -/
def stFooTurnedUp : State :=
  TurnUpModuleToLevel (SetLogLevel State.initial ErrorLevel) mFoo DebugLevel

/-- As `stFooTurnedUp`, with `bar` suppressed up to `Warn`. -/
def stFooTurnedUpBarMuted : State :=
  MuteModuleToLevel stFooTurnedUp mBar WarnLevel

/-- Threshold `Verbose`, `foo` suppressed up to `Warn`. -/
def stFooMuted : State :=
  MuteModuleToLevel (SetLogLevel State.initial VerboseLevel) mFoo WarnLevel

/-- Threshold `Error`, `foo` force-allowed from `Warn` and then suppressed up
to `Verbose`. -/
def stFooBothTables : State :=
  MuteModuleToLevel
    (TurnUpModuleToLevel (SetLogLevel State.initial ErrorLevel) mFoo WarnLevel)
    mFoo VerboseLevel

/-- The module name made of a single quote character. -/
def mQuote : GoString := [Char.ofNat 0x27]

/-- A value of `LOG_WHITELIST`: the malformed entry `x=bogus`, then an entry
naming the module `mQuote` at level `e`. -/
def envQuoteEdge : GoString := "x=bogus,".toList ++ mQuote ++ "=e".toList

/-- Attributes with a `"func"` pair in second key position. -/
def attrsFuncSecond : List Value :=
  [.str "user".toList, .str "x".toList, .str kFunc, .str (mFoo ++ '.' :: symBar)]

/-- An HTTP client whose `Post` panics. -/
def postPanics : Request → PostOutcome := fun _ => .fault "nil client".toList

/-- An HTTP client whose `Post` returns status 500. -/
def postStatus500 : Request → PostOutcome := fun _ => .response 500 []

def endpointLocal : GoString := "http://127.0.0.1:8000/log".toList

def lineHello : Bytes := [104, 105, 10]

/-! ## Auxiliary facts about `Output` -/

theorem IndexByte_ne_neg_one (v : GoString) (c : Char) : IndexByte v c ≠ -1 ↔ c ∈ v := by
  unfold IndexByte
  by_cases h : c ∈ v
  · simp [h]
  · simp [h]

theorem IndexByte_qualifier (m sym : GoString) (c : Char) (hm : c ∉ m) :
    IndexByte (m ++ c :: sym) c = (m.length : Int) := by
  unfold IndexByte
  have : List.indexOf c (m ++ c :: sym) = m.length := by
    induction m with
    | nil => simp
    | cons a t ih =>
      have ha : a ≠ c := fun h => hm (by simp [h])
      have ht : c ∉ t := fun h => hm (by simp [h])
      simp [List.indexOf_cons, ha, ih ht]
  simp [this]

theorem take_qualifier (m sym : GoString) (c : Char) (hm : c ∉ m) :
    (m ++ c :: sym).take (IndexByte (m ++ c :: sym) c).toNat = m := by
  rw [IndexByte_qualifier m sym c hm]
  simp

/-- The decision of `Output` on a record whose attributes start with `"func"`
and a dotted qualifier, when the suppress table is non-empty. -/
theorem Output_qualified (st : State) (l : Level) (msg m sym : GoString) (rest : List Value)
    (hm : '.' ∉ m) (hB : 0 < st.moduleBlacklist.entries.length) :
    Output st l msg (.str kFunc :: .str (m ++ '.' :: sym) :: rest) =
      if (∃ b, st.moduleBlacklist.lookup m = some b ∧ l ≤ b) then []
      else if (∃ w, st.moduleWhitelist.lookup m = some w ∧ w ≤ l) ∨ st.activeLogLevel ≤ l then
        [⟨.Debugw, msg, .str kFunc :: .str (m ++ '.' :: sym) :: rest⟩]
      else [] := by
  have hidx : IndexByte (m ++ '.' :: sym) '.' ≠ -1 :=
    (IndexByte_ne_neg_one _ _).2 (by simp)
  have htake := take_qualifier m sym '.' hm
  simp only [Output, kFunc]
  rw [if_pos ⟨by simp, hB⟩]
  simp only [if_true, if_pos hidx]
  rw [htake]
  cases hb : st.moduleBlacklist.lookup m <;> cases hw : st.moduleWhitelist.lookup m <;>
    simp only [Option.some.injEq, exists_eq_left', false_and, exists_false, if_false, false_or,
      reduceCtorEq, ge_iff_le, gt_iff_lt] <;>
    split_ifs <;> first | rfl | (exfalso; dsimp only [Level] at *; omega)

theorem Output_gate_closed (st : State) (l : Level) (msg : GoString) (kvs : List Value)
    (hB : st.moduleBlacklist.entries.length = 0) :
    Output st l msg kvs =
      if st.activeLogLevel ≤ l then [⟨.Debugw, msg, kvs⟩] else [] := by
  simp only [Output]
  rw [if_neg (by omega)]
  simp only [gt_iff_lt]
  split_ifs <;> first | rfl | (exfalso; dsimp only [Level] at *; omega)

theorem Output_unqualified (st : State) (l : Level) (msg : GoString) (kvs : List Value)
    (h : ¬ ∃ v rest, kvs = .str kFunc :: .str v :: rest ∧ '.' ∈ v) :
    Output st l msg kvs =
      if st.activeLogLevel ≤ l then [⟨.Debugw, msg, kvs⟩] else [] := by
  have hthr : (if st.activeLogLevel > l then ([] : List LogCall) else [⟨.Debugw, msg, kvs⟩]) =
      if st.activeLogLevel ≤ l then [⟨.Debugw, msg, kvs⟩] else [] := by
    simp only [gt_iff_lt]
    split_ifs <;> first | rfl | (exfalso; dsimp only [Level] at *; omega)
  simp only [Output]
  rw [hthr]
  generalize (if st.activeLogLevel ≤ l then [LogCall.mk .Debugw msg kvs] else []) = T
  split_ifs with hg
  · split
    · rename_i k v rest
      split_ifs with hk hi
      · exfalso
        exact h ⟨v, rest, by rw [hk, kFunc], (IndexByte_ne_neg_one _ _).1 hi⟩
      · rfl
      · rfl
    · rfl
  · rfl

theorem entries_length_pos_of_mem (t : Table) (m : GoString) (h : m ∈ t) :
    0 < t.entries.length := by
  cases he : t.entries with
  | nil =>
    exfalso
    have : m ∈ t.keys := AList.mem_keys.1 h
    simp [AList.keys, he] at this
  | cons a l => simp

/-! ## C1: force-allow -/

/-- C1, the code at the failing input: with the force-allow entry
`foo -> Debug`, threshold `Error` and an empty suppress table, a `Debug`
record whose attributes start with `"func", "foo.Bar"` is not emitted; the
same record is emitted once an unrelated module, `bar`, is suppressed. -/
theorem force_allow_ignored_when_nothing_suppressed :
    stFooTurnedUp.moduleWhitelist.lookup mFoo = some DebugLevel ∧
    stFooTurnedUp.activeLogLevel = ErrorLevel ∧
    '.' ∉ mFoo ∧
    Output stFooTurnedUp DebugLevel msgHello
      [.str kFunc, .str (mFoo ++ '.' :: symBar)] = [] ∧
    stFooTurnedUpBarMuted = MuteModuleToLevel stFooTurnedUp mBar WarnLevel ∧
    Output stFooTurnedUpBarMuted DebugLevel msgHello
      [.str kFunc, .str (mFoo ++ '.' :: symBar)] =
      [⟨.Debugw, msgHello, [.str kFunc, .str (mFoo ++ '.' :: symBar)]⟩] := by
  refine ⟨by decide, by decide, by decide, by decide, rfl, by decide⟩

/-! ## C2: suppression -/

/-- C2: if the suppress table holds `m -> L`, `l ≤ L`, and the attributes
start with `"func"` followed by `"m.<symbol>"` (`m` without a dot), then
`Output` makes no call on `Log`, whatever the threshold and the force-allow
table. -/
theorem suppressed_rejects (st : State) (l L : Level) (msg m sym : GoString)
    (rest : List Value) (hm : '.' ∉ m)
    (hB : st.moduleBlacklist.lookup m = some L) (hl : l ≤ L) :
    Output st l msg (.str kFunc :: .str (m ++ '.' :: sym) :: rest) = [] := by
  have hne : 0 < st.moduleBlacklist.entries.length :=
    entries_length_pos_of_mem _ m (AList.lookup_isSome.1 (by rw [hB]; rfl))
  rw [Output_qualified st l msg m sym rest hm hne]
  exact if_pos ⟨L, hB, hl⟩

/-- C2 at the input of the specification: entry `(foo, Warn)`, record
`func="foo.Bar"` at level `Info`, threshold `Verbose`. -/
theorem suppressed_rejects_witness :
    stFooMuted.activeLogLevel = VerboseLevel ∧
    Output stFooMuted InfoLevel msgHello
      (.str kFunc :: .str (mFoo ++ '.' :: symBar) :: []) = [] :=
  ⟨by decide,
   suppressed_rejects stFooMuted InfoLevel WarnLevel msgHello mFoo symBar []
    (by decide) (by decide) (by decide)⟩

/-! ## C3: the global threshold -/

/-- C3: when the attributes do not start with `"func"` followed by a dotted
string, or they do and the module has no entry in either table, `Output`
makes the call `Log.Debugw(msg, attrs...)` if and only if the threshold is at
most the record's level, and makes no call when the level is below the
threshold. -/
theorem threshold_decides (st : State) (a : Level) (msg : GoString) (kvs : List Value)
    (h : (¬ ∃ v rest, kvs = .str kFunc :: .str v :: rest ∧ '.' ∈ v) ∨
      (∃ m sym rest, '.' ∉ m ∧ kvs = .str kFunc :: .str (m ++ '.' :: sym) :: rest ∧
        st.moduleWhitelist.lookup m = none ∧ st.moduleBlacklist.lookup m = none)) :
    (Output st a msg kvs = [⟨.Debugw, msg, kvs⟩] ↔ st.activeLogLevel ≤ a) ∧
    (a < st.activeLogLevel → Output st a msg kvs = []) := by
  have key : Output st a msg kvs =
      if st.activeLogLevel ≤ a then [⟨.Debugw, msg, kvs⟩] else [] := by
    rcases h with h | ⟨m, sym, rest, hm, rfl, hW, hB⟩
    · exact Output_unqualified st a msg kvs h
    · by_cases hg : 0 < st.moduleBlacklist.entries.length
      · rw [Output_qualified st a msg m sym rest hm hg]
        simp [hW, hB]
      · exact Output_gate_closed st a msg _ (by omega)
  rw [key]
  constructor
  · constructor
    · intro h1
      by_contra h2
      rw [if_neg h2] at h1
      exact absurd h1 (by simp)
    · intro h1
      rw [if_pos h1]
  · intro h1
    rw [if_neg (not_le.mpr h1)]

/-- C3 at a concrete input: a record whose first key is not `"func"`, at
level `Verbose` with threshold `Verbose`. -/
theorem threshold_decides_witness :
    (Output stFooMuted VerboseLevel msgHello [.str mFoo, .str (mFoo ++ '.' :: symBar)] =
        [⟨.Debugw, msgHello, [.str mFoo, .str (mFoo ++ '.' :: symBar)]⟩] ↔
      stFooMuted.activeLogLevel ≤ VerboseLevel) ∧
    (VerboseLevel < stFooMuted.activeLogLevel →
      Output stFooMuted VerboseLevel msgHello [.str mFoo, .str (mFoo ++ '.' :: symBar)] = []) :=
  threshold_decides stFooMuted VerboseLevel msgHello [.str mFoo, .str (mFoo ++ '.' :: symBar)]
    (Or.inl (by
      rintro ⟨v, rest, h, _⟩
      have h0 : mFoo = kFunc := by injection h with h1 _; injection h1
      exact absurd h0 (by decide)))

/-! ## C4: the unfiltered calls -/

/-- C4: for every state (threshold and both override tables), message and
attribute sequence, `Warn`, `Error` and `Fatal` each make exactly one call on
`Log` (`Warnw`, `Errorw`, `Fatalw`) with the message and attributes unchanged. -/
theorem warn_error_fatal_unfiltered (st : State) (msg : GoString) (kvs : List Value) :
    Warn st msg kvs = [⟨.Warnw, msg, kvs⟩] ∧
    Error st msg kvs = [⟨.Errorw, msg, kvs⟩] ∧
    Fatal st msg kvs = [⟨.Fatalw, msg, kvs⟩] :=
  ⟨rfl, rfl, rfl⟩

/-! ## C5, C7: effect of the registration calls on the tables -/

/-- C5: after `MuteModuleToLevel(m, Y)` then `TurnUpModuleToLevel(m, X)` the
suppress table has no entry for `m`, the force-allow table maps `m` to `X`,
every other module keeps its entries in both tables, and a record of module
`m` is emitted exactly when the threshold, or the force-allow entry behind
the non-empty-suppress-table gate, lets it through: no level is rejected by
the suppress path. -/
theorem turnUp_after_mute (st : State) (m : GoString) (X Y : Level) :
    (TurnUpModuleToLevel (MuteModuleToLevel st m Y) m X).moduleBlacklist.lookup m = none ∧
    (TurnUpModuleToLevel (MuteModuleToLevel st m Y) m X).moduleWhitelist.lookup m = some X ∧
    (∀ m', m' ≠ m →
      (TurnUpModuleToLevel (MuteModuleToLevel st m Y) m X).moduleBlacklist.lookup m' =
        st.moduleBlacklist.lookup m' ∧
      (TurnUpModuleToLevel (MuteModuleToLevel st m Y) m X).moduleWhitelist.lookup m' =
        st.moduleWhitelist.lookup m') ∧
    (∀ (l : Level) (msg sym : GoString) (rest : List Value), '.' ∉ m →
      Output (TurnUpModuleToLevel (MuteModuleToLevel st m Y) m X) l msg
          (.str kFunc :: .str (m ++ '.' :: sym) :: rest) =
        if (0 < (TurnUpModuleToLevel (MuteModuleToLevel st m Y) m X).moduleBlacklist.entries.length
              ∧ X ≤ l) ∨ st.activeLogLevel ≤ l then
          [⟨.Debugw, msg, .str kFunc :: .str (m ++ '.' :: sym) :: rest⟩]
        else []) := by
  have hB : (TurnUpModuleToLevel (MuteModuleToLevel st m Y) m X).moduleBlacklist.lookup m
      = none := by
    simp [TurnUpModuleToLevel, MuteModuleToLevel]
  have hW : (TurnUpModuleToLevel (MuteModuleToLevel st m Y) m X).moduleWhitelist.lookup m
      = some X := by
    simp [TurnUpModuleToLevel, MuteModuleToLevel]
  refine ⟨hB, hW, ?_, ?_⟩
  · intro m' hne
    constructor
    · simp only [TurnUpModuleToLevel, MuteModuleToLevel]
      rw [AList.lookup_erase_ne hne, AList.lookup_insert_ne hne]
    · simp only [TurnUpModuleToLevel, MuteModuleToLevel]
      rw [AList.lookup_insert_ne hne]
  · intro l msg sym rest hm
    by_cases hg : 0 < (TurnUpModuleToLevel (MuteModuleToLevel st m Y) m X).moduleBlacklist.entries.length
    · rw [Output_qualified _ l msg m sym rest hm hg, hB, hW]
      have hact : (TurnUpModuleToLevel (MuteModuleToLevel st m Y) m X).activeLogLevel
          = st.activeLogLevel := rfl
      simp [hg, hact]
    · rw [Output_gate_closed _ l msg _ (by omega)]
      have hact : (TurnUpModuleToLevel (MuteModuleToLevel st m Y) m X).activeLogLevel
          = st.activeLogLevel := rfl
      simp [hg, hact]

/-- C7: `MuteModuleToLevel(m, L)` sets the suppress-table entry of `m` to
`L`, keeps every other suppress-table entry, and leaves the force-allow table
(and the threshold) as they were. -/
theorem mute_frame (st : State) (m : GoString) (L : Level) :
    (MuteModuleToLevel st m L).moduleBlacklist.lookup m = some L ∧
    (∀ m', m' ≠ m →
      (MuteModuleToLevel st m L).moduleBlacklist.lookup m' = st.moduleBlacklist.lookup m') ∧
    (MuteModuleToLevel st m L).moduleWhitelist = st.moduleWhitelist ∧
    (MuteModuleToLevel st m L).activeLogLevel = st.activeLogLevel := by
  refine ⟨?_, ?_, rfl, rfl⟩
  · simp [MuteModuleToLevel]
  · intro m' hne
    simp only [MuteModuleToLevel]
    rw [AList.lookup_insert_ne hne]

/-! ## C9: the order of the level constants -/

/-- C9: the seven level constants are strictly increasing in the order
Verbose, Debug, Success, Info, Warn, Error, Fatal; hence they are pairwise
distinct, with `VerboseLevel` the least and `FatalLevel` the greatest. -/
theorem levels_strictly_ordered :
    VerboseLevel < DebugLevel ∧ DebugLevel < SuccessLevel ∧ SuccessLevel < InfoLevel ∧
    InfoLevel < WarnLevel ∧ WarnLevel < ErrorLevel ∧ ErrorLevel < FatalLevel ∧
    [VerboseLevel, DebugLevel, SuccessLevel, InfoLevel, WarnLevel, ErrorLevel,
      FatalLevel].Nodup ∧
    (∀ x ∈ [VerboseLevel, DebugLevel, SuccessLevel, InfoLevel, WarnLevel, ErrorLevel,
      FatalLevel], VerboseLevel ≤ x ∧ x ≤ FatalLevel) := by
  decide

/-! ## C6: which modules are in both tables -/

theorem runCalls_concat (st : State) (cs : List Call) (c : Call) :
    runCalls st (cs ++ [c]) = Call.apply (runCalls st cs) c := by
  simp [runCalls, List.foldl_append]

theorem mem_whitelist_iff (t : Level) (calls : List Call) (m : GoString) :
    m ∈ (runCalls (State.emptyTables t) calls).moduleWhitelist ↔
      ∃ l, Call.turnUp m l ∈ calls := by
  induction calls using List.reverseRecOn with
  | nil => simp [runCalls, State.emptyTables]
  | append_singleton cs c ih =>
    rw [runCalls_concat]
    cases c with
    | mute m' l' =>
      simp only [Call.apply, MuteModuleToLevel]
      rw [ih]
      simp
    | turnUp m' l' =>
      simp only [Call.apply, TurnUpModuleToLevel, AList.mem_insert]
      rw [ih]
      constructor
      · rintro (h | ⟨l, hl⟩)
        · exact ⟨l', by simp [h]⟩
        · exact ⟨l, by simp [hl]⟩
      · rintro ⟨l, hl⟩
        rcases List.mem_append.1 hl with h | h
        · exact Or.inr ⟨l, h⟩
        · simp at h
          exact Or.inl h.1

theorem mem_blacklist_iff (t : Level) (calls : List Call) (m : GoString) :
    m ∈ (runCalls (State.emptyTables t) calls).moduleBlacklist ↔
      ∃ l, (calls.filter (fun c => decide (c.module = m))).getLast? = some (Call.mute m l) := by
  induction calls using List.reverseRecOn with
  | nil => simp [runCalls, State.emptyTables]
  | append_singleton cs c ih =>
    rw [runCalls_concat, List.filter_append]
    by_cases hc : c.module = m
    · have hf : List.filter (fun c => decide (c.module = m)) [c] = [c] := by simp [hc]
      rw [hf, List.getLast?_append, List.getLast?_singleton]
      cases c with
      | mute m' l' =>
        have hm : m' = m := hc
        subst hm
        simp [Call.apply, MuteModuleToLevel, AList.mem_insert]
      | turnUp m' l' =>
        have hm : m' = m := hc
        subst hm
        simp [Call.apply, TurnUpModuleToLevel, AList.mem_erase]
    · have hf : List.filter (fun c => decide (c.module = m)) [c] = [] := by simp [hc]
      rw [hf, List.append_nil, ← ih]
      cases c with
      | mute m' l' =>
        have hm : m ≠ m' := fun h => hc h.symm
        simp [Call.apply, MuteModuleToLevel, AList.mem_insert, hm]
      | turnUp m' l' =>
        have hm : m ≠ m' := fun h => hc h.symm
        simp [Call.apply, TurnUpModuleToLevel, AList.mem_erase, hm]

/-- C6 (as stated, fails): from two empty tables, `TurnUpModuleToLevel(foo,
Debug)` followed by `MuteModuleToLevel(foo, Warn)` reaches a state in which
`foo` is in the force-allow table and in the suppress table. -/
theorem both_tables_after_turnUp_then_mute :
    mFoo ∈ (runCalls State.initial
      [.turnUp mFoo DebugLevel, .mute mFoo WarnLevel]).moduleWhitelist ∧
    mFoo ∈ (runCalls State.initial
      [.turnUp mFoo DebugLevel, .mute mFoo WarnLevel]).moduleBlacklist := by
  decide

/-- C6 (amended): in the state reached from two empty tables by a sequence of
`MuteModuleToLevel` and `TurnUpModuleToLevel` calls, a module `m` is in both
tables exactly when the sequence contains a `TurnUpModuleToLevel(m, _)` and
the last call naming `m` is a `MuteModuleToLevel(m, _)`. -/
theorem both_tables_iff (t : Level) (calls : List Call) (m : GoString) :
    (m ∈ (runCalls (State.emptyTables t) calls).moduleWhitelist ∧
      m ∈ (runCalls (State.emptyTables t) calls).moduleBlacklist) ↔
    ((∃ l, Call.turnUp m l ∈ calls) ∧
      ∃ l, (calls.filter (fun c => decide (c.module = m))).getLast? = some (Call.mute m l)) := by
  rw [mem_whitelist_iff, mem_blacklist_iff]

/-! ## C8: the alias lookup -/

theorem dropWhile_append_of_all (p : Char → Bool) (pre x : GoString)
    (h : ∀ c ∈ pre, p c = true) : (pre ++ x).dropWhile p = x.dropWhile p := by
  induction pre with
  | nil => rfl
  | cons a t ih =>
    have ha : p a = true := h a (by simp)
    rw [List.cons_append, List.dropWhile_cons_of_pos ha]
    exact ih (fun c hc => h c (by simp [hc]))

theorem rdropWhile_append_of_all (p : Char → Bool) (x post : GoString)
    (h : ∀ c ∈ post, p c = true) : (x ++ post).rdropWhile p = x.rdropWhile p := by
  unfold List.rdropWhile
  rw [List.reverse_append, dropWhile_append_of_all p post.reverse x.reverse
    (fun c hc => h c (List.mem_reverse.1 hc))]

theorem trim_append_of_all (p : Char → Bool) (x post : GoString)
    (h : ∀ c ∈ post, p c = true) :
    ((x ++ post).dropWhile p).rdropWhile p = (x.dropWhile p).rdropWhile p := by
  induction x with
  | nil =>
    have h0 : post.dropWhile p = [] := by
      have := dropWhile_append_of_all p post [] h
      simpa using this
    simp [h0]
  | cons a t ih =>
    by_cases ha : p a = true
    · rw [List.cons_append, List.dropWhile_cons_of_pos ha, List.dropWhile_cons_of_pos ha]
      exact ih
    · rw [List.cons_append, List.dropWhile_cons_of_neg ha, List.dropWhile_cons_of_neg ha,
        ← List.cons_append]
      exact rdropWhile_append_of_all p (a :: t) post h

theorem TrimSpace_surrounded (t pre post : GoString)
    (hpre : ∀ c ∈ pre, isSpace c = true) (hpost : ∀ c ∈ post, isSpace c = true) :
    TrimSpace (pre ++ t ++ post) = TrimSpace t := by
  unfold TrimSpace
  rw [List.append_assoc, dropWhile_append_of_all isSpace pre (t ++ post) hpre]
  exact trim_append_of_all isSpace t post hpost

/-- C8 (as stated, fails): `"warn"` is looked up to `WarnLevel`, while
`"WARN"`, which differs from it in letter case only, is not recognised. -/
theorem lookupLevel_case_sensitive :
    lookupLevel "warn".toList = some WarnLevel ∧
    "warn".toList.map Char.toUpper = "WARN".toList ∧
    lookupLevel "WARN".toList = none := by
  decide

/-- C8 (amended): the lookup ignores surrounding white space and is
case-sensitive. Adding white space around any token does not change the
result; each alias of `logLevelMap` yields its level; and the lookup fails
exactly when the token, with surrounding white space removed, is not one of
the (lower-case) keys of `logLevelMap`. -/
theorem lookupLevel_spec (t pre post : GoString)
    (hpre : ∀ c ∈ pre, isSpace c = true) (hpost : ∀ c ∈ post, isSpace c = true) :
    lookupLevel (pre ++ t ++ post) = lookupLevel t ∧
    (∀ e ∈ logLevelMap, lookupLevel (pre ++ e.1 ++ post) = some e.2) ∧
    (lookupLevel t = none ↔ TrimSpace t ∉ logLevelMap.map Prod.fst) := by
  have h1 : ∀ u : GoString, lookupLevel (pre ++ u ++ post) = lookupLevel u := by
    intro u
    unfold lookupLevel
    rw [TrimSpace_surrounded u pre post hpre hpost]
  refine ⟨h1 t, ?_, ?_⟩
  · intro e he
    rw [h1 e.1]
    revert e
    decide
  · unfold lookupLevel
    rw [List.lookup_eq_none_iff]
    simp only [bne_iff_ne, ne_eq, List.mem_map, Prod.exists, exists_and_right, exists_eq_right,
      not_exists, Prod.forall]
    constructor
    · intro h x hx
      exact h _ x hx rfl
    · intro h a b hab heq
      subst heq
      exact h b hab

/-- C8 (amended), at a concrete input: the token `warn` between a blank and a
tab on the left and a newline on the right. -/
theorem lookupLevel_spec_witness :
    lookupLevel ([' ', '\t'] ++ "warn".toList ++ ['\n']) = lookupLevel "warn".toList ∧
    (∀ e ∈ logLevelMap, lookupLevel ([' ', '\t'] ++ e.1 ++ ['\n']) = some e.2) ∧
    (lookupLevel "warn".toList = none ↔ TrimSpace "warn".toList ∉ logLevelMap.map Prod.fst) :=
  lookupLevel_spec "warn".toList [' ', '\t'] ['\n'] (by decide) (by decide)

/-! ## C10: malformed directives are skipped -/

theorem Split_ne_nil (s : GoString) (c : Char) : Split s c ≠ [] := by
  induction s with
  | nil => simp [Split]
  | cons a t ih =>
    unfold Split
    split_ifs
    · simp
    · split <;> simp

theorem Split_of_not_mem (s : GoString) (c : Char) (h : c ∉ s) : Split s c = [s] := by
  induction s with
  | nil => rfl
  | cons a t ih =>
    have ha : a ≠ c := fun e => h (by simp [e])
    have ht : c ∉ t := fun e => h (by simp [e])
    unfold Split
    rw [if_neg ha, ih ht]

theorem Split_append_sep (e r : GoString) (c : Char) (h : c ∉ e) :
    Split (e ++ c :: r) c = e :: Split r c := by
  induction e with
  | nil => simp [Split]
  | cons a t ih =>
    have ha : a ≠ c := fun e => h (by simp [e])
    have ht : c ∉ t := fun e => h (by simp [e])
    rw [List.cons_append]
    conv_lhs => unfold Split
    rw [if_neg ha, ih ht]

theorem Split_length_of_mem (s : GoString) (c : Char) (h : c ∈ s) :
    2 ≤ (Split s c).length := by
  induction s with
  | nil => simp at h
  | cons a t ih =>
    unfold Split
    split_ifs with hac
    · have := List.length_pos.2 (Split_ne_nil t c)
      simp only [List.length_cons]
      omega
    · have ht : c ∈ t := by
        rcases List.mem_cons.1 h with h | h
        · exact absurd h.symm hac
        · exact h
      have := ih ht
      split
      · rename_i hnil
        exact absurd hnil (Split_ne_nil t c)
      · rename_i piece pieces hsp
        rw [hsp] at this
        simpa using this

theorem Split_pieces_no_sep (s : GoString) (c : Char) : ∀ e ∈ Split s c, c ∉ e := by
  induction s with
  | nil => simp [Split]
  | cons a t ih =>
    unfold Split
    split_ifs with hac
    · intro e he
      rcases List.mem_cons.1 he with rfl | he
      · simp
      · exact ih e he
    · split
      · rename_i hnil
        exact absurd hnil (Split_ne_nil t c)
      · rename_i piece pieces hsp
        intro e he
        rcases List.mem_cons.1 he with rfl | he
        · have hp : c ∉ piece := ih piece (by rw [hsp]; simp)
          intro hmem
          rcases List.mem_cons.1 hmem with h | h
          · exact hac h.symm
          · exact hp h
        · exact ih e (by rw [hsp]; simp [he])

theorem Split_Join (es : List GoString) (c : Char) (hne : es ≠ [])
    (h : ∀ e ∈ es, c ∉ e) : Split (Join es c) c = es := by
  induction es with
  | nil => exact absurd rfl hne
  | cons e t ih =>
    cases t with
    | nil => exact Split_of_not_mem e c (h e (by simp))
    | cons e' t' =>
      have he : c ∉ e := h e (by simp)
      show Split (e ++ c :: Join (e' :: t') c) c = e :: e' :: t'
      rw [Split_append_sep e _ c he, ih (by simp) (fun x hx => h x (by simp [hx]))]

theorem foldl_filter_skip {σ α : Type} (f : σ → α → σ) (p : α → Bool)
    (hskip : ∀ s a, p a = false → f s a = s) (es : List α) (s : σ) :
    (es.filter p).foldl f s = es.foldl f s := by
  induction es generalizing s with
  | nil => rfl
  | cons a t ih =>
    by_cases hp : p a = true
    · rw [List.filter_cons_of_pos hp, List.foldl_cons, List.foldl_cons, ih]
    · rw [List.filter_cons_of_neg hp, List.foldl_cons, hskip s a (by simpa using hp), ih]

theorem entry_of_malformed (st : State) (e : GoString) (h : malformedEntry e = true) :
    whitelistEntry st e = st ∧ blacklistEntry st e = st := by
  unfold malformedEntry at h
  by_cases heq : '=' ∈ e
  · have hnone : lookupLevel ((Split e '=').getD 1 []) = none := by
      simpa [heq] using h
    unfold whitelistEntry blacklistEntry
    simp only [hnone]
    constructor <;> split_ifs <;> rfl
  · have hs := Split_of_not_mem e '=' heq
    unfold whitelistEntry blacklistEntry
    simp [hs]

theorem entry_of_wellformed (st : State) (e : GoString) (h : malformedEntry e = false) :
    ∃ lvl, lookupLevel ((Split e '=').getD 1 []) = some lvl ∧
      whitelistEntry st e =
        TurnUpModuleToLevel st (TrimSpace ((Split e '=').getD 0 [])) lvl ∧
      blacklistEntry st e =
        MuteModuleToLevel st (TrimSpace ((Split e '=').getD 0 [])) lvl := by
  unfold malformedEntry at h
  simp only [Bool.or_eq_false_iff, Bool.not_eq_false', decide_eq_true_eq,
    Option.isNone_eq_false_iff, Option.isSome_iff_exists] at h
  obtain ⟨hmem, lvl, hl⟩ := h
  have hlen : ¬ (Split e '=').length < 2 := by
    have := Split_length_of_mem e '=' hmem
    omega
  refine ⟨lvl, hl, ?_, ?_⟩
  · unfold whitelistEntry
    simp only [hl, if_neg hlen]
  · unfold blacklistEntry
    simp only [hl, if_neg hlen]


theorem loop_withoutMalformed {σ : Type} (f : σ → GoString → σ)
    (hskip : ∀ s e, malformedEntry e = true → f s e = s) (s : σ) (list : GoString) :
    (Split (withoutMalformed list) ',').foldl f s = (Split list ',').foldl f s := by
  unfold withoutMalformed
  have hfold := foldl_filter_skip f (fun e => !malformedEntry e)
    (fun s a ha => hskip s a (by simpa using ha)) (Split list ',') s
  by_cases hne : (Split list ',').filter (fun e => !malformedEntry e) = []
  · rw [hne] at hfold ⊢
    rw [← hfold]
    show f s [] = s
    exact hskip s [] (by decide)
  · rw [Split_Join _ ',' hne (fun e he =>
      Split_pieces_no_sep list ',' e (List.mem_of_mem_filter he))]
    exact hfold

theorem Trim_directives (st : State) (w b : GoString)
    (hw : Trim w quoteCutset = w) (hb : Trim b quoteCutset = b) :
    EnableLogging.directives st w b = blacklistLoop (whitelistLoop st w) b := by
  simp only [EnableLogging.directives, hw, hb]

theorem directives_withoutMalformed (st : State) (envWhitelist envBlacklist : GoString) :
    EnableLogging.directives st envWhitelist envBlacklist =
      blacklistLoop
        (whitelistLoop st (withoutMalformed (Trim envWhitelist quoteCutset)))
        (withoutMalformed (Trim envBlacklist quoteCutset)) := by
  unfold EnableLogging.directives blacklistLoop whitelistLoop
  rw [loop_withoutMalformed whitelistEntry (fun s e h => (entry_of_malformed s e h).1),
    loop_withoutMalformed blacklistEntry (fun s e h => (entry_of_malformed s e h).2)]

theorem whitelistEntry_of_wellformed (st : State) (e : GoString)
    (h : malformedEntry e = false) :
    whitelistEntry st e = TurnUpModuleToLevel st (directiveModule e) (directiveLevel e) := by
  obtain ⟨lvl, hl, hw, _⟩ := entry_of_wellformed st e h
  rw [hw, directiveModule, directiveLevel, hl]
  rfl

theorem blacklistEntry_of_wellformed (st : State) (e : GoString)
    (h : malformedEntry e = false) :
    blacklistEntry st e = MuteModuleToLevel st (directiveModule e) (directiveLevel e) := by
  obtain ⟨lvl, hl, _, hb⟩ := entry_of_wellformed st e h
  rw [hb, directiveModule, directiveLevel, hl]
  rfl

theorem directives_register_wellformed (st : State) (envWhitelist envBlacklist : GoString) :
    EnableLogging.directives st envWhitelist envBlacklist =
      (wellFormedEntries (Trim envBlacklist quoteCutset)).foldl
        (fun s e => MuteModuleToLevel s (directiveModule e) (directiveLevel e))
        ((wellFormedEntries (Trim envWhitelist quoteCutset)).foldl
          (fun s e => TurnUpModuleToLevel s (directiveModule e) (directiveLevel e)) st) := by
  have hW : ∀ (s : State) (list : GoString), whitelistLoop s list =
      (wellFormedEntries list).foldl
        (fun s e => TurnUpModuleToLevel s (directiveModule e) (directiveLevel e)) s := by
    intro s list
    unfold whitelistLoop wellFormedEntries
    rw [← foldl_filter_skip whitelistEntry (fun e => !malformedEntry e)
      (fun s a ha => (entry_of_malformed s a (by simpa using ha)).1)]
    apply List.foldl_ext
    intro a e he
    exact whitelistEntry_of_wellformed a e (by simpa using (List.mem_filter.1 he).2)
  have hB : ∀ (s : State) (list : GoString), blacklistLoop s list =
      (wellFormedEntries list).foldl
        (fun s e => MuteModuleToLevel s (directiveModule e) (directiveLevel e)) s := by
    intro s list
    unfold blacklistLoop wellFormedEntries
    rw [← foldl_filter_skip blacklistEntry (fun e => !malformedEntry e)
      (fun s a ha => (entry_of_malformed s a (by simpa using ha)).2)]
    apply List.foldl_ext
    intro a e he
    exact blacklistEntry_of_wellformed a e (by simpa using (List.mem_filter.1 he).2)
  simp only [EnableLogging.directives]
  rw [hB, hW]

/-- C10 (as stated, fails): for the whitelist `x=bogus,Q=e`, with `Q` a
single quote character, `EnableLogging` registers the module `Q` at `Error`;
for the same list with the malformed entry `x=bogus` removed, `Q=e`, the
leading quote is trimmed, the module registered is the empty name, and `Q`
is in no table. -/
theorem requoted_list_parses_differently :
    withoutMalformed envQuoteEdge = mQuote ++ "=e".toList ∧
    (EnableLogging State.initial [] [] envQuoteEdge [] (fun _ => true)).map
        (fun r => r.2.moduleWhitelist.lookup mQuote) = some (some ErrorLevel) ∧
    (EnableLogging State.initial [] [] (withoutMalformed envQuoteEdge) [] (fun _ => true)).map
        (fun r => r.2.moduleWhitelist.lookup mQuote) = some none := by
  decide

/-- C10 (amended): `EnableLogging` aborts exactly when `initZapLogger` panics,
whatever the two directive lists; an entry that has no `=` or whose level
token is not recognised leaves the state unchanged; an entry that is not
malformed registers its module, without surrounding white space, at the level
of its token; the resulting state is that of registering, in order, the
well-formed entries of the quote-trimmed whitelist with `TurnUpModuleToLevel`
and then those of the quote-trimmed blacklist with `MuteModuleToLevel`; it
equals the state after the two loops on the quote-trimmed lists with the
malformed entries removed, and the result of `EnableLogging` on those lists
whenever trimming quotes leaves them unchanged. -/
theorem malformed_directives_skipped (st : State)
    (envLoghubSink envSentrySink envWhitelist envBlacklist : GoString)
    (ravenNew : GoString → Bool) :
    ((EnableLogging st envLoghubSink envSentrySink envWhitelist envBlacklist ravenNew).isSome =
      (initZapLogger (decide (envLoghubSink = "enabled".toList))
        (decide (envSentrySink ≠ [])) envSentrySink ravenNew).isSome) ∧
    (∀ (st' : State) (e : GoString), malformedEntry e = true →
      whitelistEntry st' e = st' ∧ blacklistEntry st' e = st') ∧
    (∀ (st' : State) (e : GoString), malformedEntry e = false →
      ∃ lvl, lookupLevel ((Split e '=').getD 1 []) = some lvl ∧
        whitelistEntry st' e =
          TurnUpModuleToLevel st' (TrimSpace ((Split e '=').getD 0 [])) lvl ∧
        blacklistEntry st' e =
          MuteModuleToLevel st' (TrimSpace ((Split e '=').getD 0 [])) lvl) ∧
    (∀ r, EnableLogging st envLoghubSink envSentrySink envWhitelist envBlacklist ravenNew
        = some r →
      r.2 = (wellFormedEntries (Trim envBlacklist quoteCutset)).foldl
        (fun s e => MuteModuleToLevel s (directiveModule e) (directiveLevel e))
        ((wellFormedEntries (Trim envWhitelist quoteCutset)).foldl
          (fun s e => TurnUpModuleToLevel s (directiveModule e) (directiveLevel e)) st) ∧
      r.2 = blacklistLoop
        (whitelistLoop st (withoutMalformed (Trim envWhitelist quoteCutset)))
        (withoutMalformed (Trim envBlacklist quoteCutset))) ∧
    (Trim (withoutMalformed (Trim envWhitelist quoteCutset)) quoteCutset =
        withoutMalformed (Trim envWhitelist quoteCutset) →
      Trim (withoutMalformed (Trim envBlacklist quoteCutset)) quoteCutset =
        withoutMalformed (Trim envBlacklist quoteCutset) →
      EnableLogging st envLoghubSink envSentrySink
          (withoutMalformed (Trim envWhitelist quoteCutset))
          (withoutMalformed (Trim envBlacklist quoteCutset)) ravenNew =
        EnableLogging st envLoghubSink envSentrySink envWhitelist envBlacklist ravenNew) := by
  refine ⟨?_, entry_of_malformed, entry_of_wellformed, ?_, ?_⟩
  · unfold EnableLogging
    cases initZapLogger (decide (envLoghubSink = "enabled".toList))
      (decide (envSentrySink ≠ [])) envSentrySink ravenNew <;> rfl
  · intro r hr
    unfold EnableLogging at hr
    cases hz : initZapLogger (decide (envLoghubSink = "enabled".toList))
      (decide (envSentrySink ≠ [])) envSentrySink ravenNew with
    | none => rw [hz] at hr; exact absurd hr (by simp)
    | some lg =>
      rw [hz] at hr
      injection hr with hr
      subst hr
      exact ⟨directives_register_wellformed st envWhitelist envBlacklist,
        directives_withoutMalformed st envWhitelist envBlacklist⟩
  · intro hw hb
    unfold EnableLogging
    rw [Trim_directives st _ _ hw hb, directives_withoutMalformed st envWhitelist envBlacklist]

/-! ## C11: where the qualifier is read -/

/-- C11 (as stated, fails): with the suppress entry `foo -> Warn` and
threshold `Verbose`, an `Info` record whose attributes hold the key `"func"`
with `"foo.Bar"` in second key position is emitted. -/
theorem later_func_pair_not_suppressed :
    stFooMuted.moduleBlacklist.lookup mFoo = some WarnLevel ∧
    InfoLevel ≤ WarnLevel ∧
    attrsFuncSecond =
      [.str "user".toList, .str "x".toList, .str kFunc, .str (mFoo ++ '.' :: symBar)] ∧
    Output stFooMuted InfoLevel msgHello attrsFuncSecond =
      [⟨.Debugw, msgHello, attrsFuncSecond⟩] := by
  decide

/-- C11 (amended): the qualifier is read from the first two attributes only.
A record whose attributes start with `"func"` followed by `"m.<symbol>"`, `m`
suppressed up to `L` and `l ≤ L`, is rejected; a record whose first attribute
is not the string `"func"` is decided by the threshold alone, whatever pairs
follow. -/
theorem qualifier_only_at_front (st : State) (l : Level) (msg : GoString) :
    (∀ (L : Level) (m sym : GoString) (rest : List Value), '.' ∉ m →
      st.moduleBlacklist.lookup m = some L → l ≤ L →
      Output st l msg (.str kFunc :: .str (m ++ '.' :: sym) :: rest) = []) ∧
    (∀ (first : Value) (rest : List Value), first ≠ .str kFunc →
      Output st l msg (first :: rest) =
        if st.activeLogLevel ≤ l then [⟨.Debugw, msg, first :: rest⟩] else []) := by
  constructor
  · intro L m sym rest hm hB hl
    have hne : 0 < st.moduleBlacklist.entries.length :=
      entries_length_pos_of_mem _ m (AList.lookup_isSome.1 (by rw [hB]; rfl))
    rw [Output_qualified st l msg m sym rest hm hne]
    exact if_pos ⟨L, hB, hl⟩
  · intro first rest hfirst
    apply Output_unqualified
    rintro ⟨v, rest', h, _⟩
    injection h with h1 _
    exact hfirst h1

/-! ## C12: the disabled logger -/

theorem DisableLogging_write (e : Entry) : DisableLogging.write e = [] := rfl

theorem DisableLogging_handle (entriesOf : LogCall → List Entry) (calls : List LogCall) :
    DisableLogging.handle entriesOf calls = [] := by
  unfold Logger.handle
  rw [List.flatten_eq_nil_iff]
  intro l hl
  obtain ⟨e, _, rfl⟩ := List.mem_map.1 hl
  exact DisableLogging_write e

/-- C12: the logger that `DisableLogging` assigns to `Log` writes no entry to
any sink, so `Verbose`, `Debug`, `Success`, `Info`, `Output`, `Warn`, `Error`
and `Fatal` cause no write, for every state, level, message and attributes,
and whatever entries zap derives from a call; a logger built by
`initZapLogger` writes every entry to the console. -/
theorem disabled_logging_writes_nothing (st : State) (l : Level) (msg : GoString)
    (kvs : List Value) (entriesOf : LogCall → List Entry) :
    (∀ e : Entry, DisableLogging.write e = []) ∧
    DisableLogging.handle entriesOf (Verbose st msg kvs) = [] ∧
    DisableLogging.handle entriesOf (Debug st msg kvs) = [] ∧
    DisableLogging.handle entriesOf (Success st msg kvs) = [] ∧
    DisableLogging.handle entriesOf (Info st msg kvs) = [] ∧
    DisableLogging.handle entriesOf (Output st l msg kvs) = [] ∧
    DisableLogging.handle entriesOf (Warn st msg kvs) = [] ∧
    DisableLogging.handle entriesOf (Error st msg kvs) = [] ∧
    DisableLogging.handle entriesOf (Fatal st msg kvs) = [] ∧
    (∀ (withLoghub withSentry : Bool) (dsn : GoString) (ravenNew : GoString → Bool)
      (lg : Logger), initZapLogger withLoghub withSentry dsn ravenNew = some lg →
      ∀ e : Entry, (Sink.console, e) ∈ lg.write e) := by
  refine ⟨DisableLogging_write, DisableLogging_handle _ _, DisableLogging_handle _ _,
    DisableLogging_handle _ _, DisableLogging_handle _ _, DisableLogging_handle _ _,
    DisableLogging_handle _ _, DisableLogging_handle _ _, DisableLogging_handle _ _, ?_⟩
  intro withLoghub withSentry dsn ravenNew lg h e
  unfold initZapLogger at h
  split_ifs at h <;> simp at h <;> subst h <;>
    simp [Logger.write, allLogs]

/-! ## C13: the result of `LoghubWriter.Write` -/

/-- C13: for every line and every behaviour of the HTTP post (transport
error, any status, panic), `LoghubWriter.Write` returns `n = len(line)` and a
nil error. -/
theorem write_returns_length_nil (loghubEndpoint : GoString) (post : Request → PostOutcome)
    (line : Bytes) :
    (LoghubWriter.Write loghubEndpoint post line).n = (line.length : Int) ∧
    (LoghubWriter.Write loghubEndpoint post line).err = none :=
  ⟨rfl, rfl⟩

/-! ## C15: the empty suppress table -/

/-- C15: when the suppress table is empty, `Output` makes the call
`Log.Debugw(msg, attrs...)` if the threshold is at most the level and no call
otherwise, for every force-allow table and every attribute sequence. -/
theorem empty_suppress_table_threshold_only (st : State) (l : Level) (msg : GoString)
    (kvs : List Value) (hB : st.moduleBlacklist = ∅) :
    (Output st l msg kvs = [⟨.Debugw, msg, kvs⟩] ↔ st.activeLogLevel ≤ l) ∧
    (¬ st.activeLogLevel ≤ l → Output st l msg kvs = []) := by
  have key := Output_gate_closed st l msg kvs (by rw [hB]; rfl)
  rw [key]
  constructor
  · constructor
    · intro h1
      by_contra h2
      rw [if_neg h2] at h1
      exact absurd h1 (by simp)
    · intro h1
      rw [if_pos h1]
  · intro h1
    rw [if_neg h1]

/-- C15 at a concrete input: `foo` force-allowed from `Debug`, nothing
suppressed, threshold `Error`, a `Debug` record of `foo.Bar`. -/
theorem empty_suppress_table_threshold_only_witness :
    stFooTurnedUp.moduleWhitelist.lookup mFoo = some DebugLevel ∧
    ((Output stFooTurnedUp DebugLevel msgHello [.str kFunc, .str (mFoo ++ '.' :: symBar)] =
        [⟨.Debugw, msgHello, [.str kFunc, .str (mFoo ++ '.' :: symBar)]⟩] ↔
      stFooTurnedUp.activeLogLevel ≤ DebugLevel) ∧
    (¬ stFooTurnedUp.activeLogLevel ≤ DebugLevel →
      Output stFooTurnedUp DebugLevel msgHello
        [.str kFunc, .str (mFoo ++ '.' :: symBar)] = [])) :=
  ⟨by decide,
   empty_suppress_table_threshold_only stFooTurnedUp DebugLevel msgHello
    [.str kFunc, .str (mFoo ++ '.' :: symBar)] (AList.ext rfl)⟩

/-! ## C16: the sinks of `initZapLogger` -/

/-- C16: `initZapLogger` builds a logger unless the error-tracking branch
panics (flag set without the remote flag, and `SENTRY_SINK` empty or rejected
by `raven.New`); the logger built has the console sink, has the remote sink
exactly when `withLoghub` is set, has the error-tracking sink exactly when
`withSentry` is set and `withLoghub` is not, and never has both. -/
theorem initZapLogger_sinks (withLoghub withSentry : Bool) (dsn : GoString)
    (ravenNew : GoString → Bool) :
    ((initZapLogger withLoghub withSentry dsn ravenNew).isSome = true ↔
      (withLoghub = true ∨ withSentry = false ∨
        (dsn ≠ [] ∧ ravenNew (Trim dsn [Char.ofNat 0x27]) = true))) ∧
    (∀ lg, initZapLogger withLoghub withSentry dsn ravenNew = some lg →
      Sink.console ∈ lg.sinks ∧
      (Sink.loghub ∈ lg.sinks ↔ withLoghub = true) ∧
      (Sink.sentry ∈ lg.sinks ↔ (withSentry = true ∧ withLoghub = false)) ∧
      ¬ (Sink.loghub ∈ lg.sinks ∧ Sink.sentry ∈ lg.sinks)) := by
  unfold initZapLogger
  cases withLoghub <;> cases withSentry <;> by_cases hd : dsn = [] <;>
    cases hr : ravenNew (Trim dsn [Char.ofNat 0x27]) <;>
    simp [hd, hr, Logger.sinks]

/-! ## C17: the delivery routine -/

/-- C17 (as stated, fails): when the post panics, the routine logs a
diagnostic, although the post returned neither a transport error nor a
status other than 200. -/
theorem panic_is_logged :
    (LoghubWriter.Write endpointLocal postPanics lineHello).background.diagnostics ≠ [] ∧
    (postPanics ⟨endpointLocal, "text/plain".toList, lineHello⟩).returnedFailure = false := by
  decide

/-- C17 (amended): for every line written, the delivery routine calls `Post`
exactly once, with the line as body and content type `text/plain`; it logs
one diagnostic when the post returned a transport error or a status other
than 200 or panicked, and nothing otherwise (status 200). -/
theorem delivery_posts_once (loghubEndpoint : GoString) (post : Request → PostOutcome)
    (line : Bytes) :
    (LoghubWriter.Write loghubEndpoint post line).background.requests =
      [⟨loghubEndpoint, "text/plain".toList, line⟩] ∧
    ((LoghubWriter.Write loghubEndpoint post line).background.diagnostics ≠ [] ↔
      ((post ⟨loghubEndpoint, "text/plain".toList, line⟩).returnedFailure = true ∨
        ∃ v, post ⟨loghubEndpoint, "text/plain".toList, line⟩ = .fault v)) ∧
    (LoghubWriter.Write loghubEndpoint post line).background.diagnostics.length ≤ 1 ∧
    (∀ body, post ⟨loghubEndpoint, "text/plain".toList, line⟩ = .response 200 body →
      (LoghubWriter.Write loghubEndpoint post line).background.diagnostics = []) := by
  have hbuf : (bufferWrite [] line).1 = line := rfl
  simp only [LoghubWriter.Write, hbuf, deliveryRoutine]
  cases hp : post ⟨loghubEndpoint, "text/plain".toList, line⟩ with
  | transportError err => simp [PostOutcome.returnedFailure]
  | response code body =>
    by_cases hc : code = 200
    · simp [PostOutcome.returnedFailure, hc]
    · simp [PostOutcome.returnedFailure, hc]
  | fault v => simp [PostOutcome.returnedFailure]

/-! ## C18, C19: the complete decision of `Output` -/

theorem takeWhile_qualifier (m sym : GoString) (c : Char) (hm : c ∉ m) :
    (m ++ c :: sym).takeWhile (fun x => x != c) = m := by
  induction m with
  | nil => simp
  | cons a t ih =>
    have ha : a ≠ c := fun h => hm (by simp [h])
    have ht : c ∉ t := fun h => hm (by simp [h])
    simp [List.takeWhile_cons, ha, ih ht]

theorem split_at_first (v : GoString) (c : Char) (h : c ∈ v) :
    ∃ m sym, v = m ++ c :: sym ∧ c ∉ m := by
  induction v with
  | nil => simp at h
  | cons a t ih =>
    by_cases hac : a = c
    · exact ⟨[], t, by simp [hac], by simp⟩
    · have ht : c ∈ t := by
        rcases List.mem_cons.1 h with h | h
        · exact absurd h.symm hac
        · exact h
      obtain ⟨m, sym, hv, hm⟩ := ih ht
      refine ⟨a :: m, sym, by simp [hv], ?_⟩
      intro hmem
      rcases List.mem_cons.1 hmem with h | h
      · exact hac h.symm
      · exact hm h

theorem gateModule_qualified (st : State) (m sym : GoString) (rest : List Value)
    (hm : '.' ∉ m) (hB : 0 < st.moduleBlacklist.entries.length) :
    gateModule st (.str kFunc :: .str (m ++ '.' :: sym) :: rest) = some m := by
  have hne : st.moduleBlacklist.entries.length ≠ 0 := by omega
  simp only [gateModule, kFunc]
  rw [if_pos (by simp [hne]), takeWhile_qualifier m sym '.' hm]

theorem gateModule_unqualified (st : State) (kvs : List Value)
    (h : ¬ ∃ v rest, kvs = .str kFunc :: .str v :: rest ∧ '.' ∈ v) :
    gateModule st kvs = none := by
  unfold gateModule
  split
  · rename_i k v rest
    rw [if_neg]
    rintro ⟨_, hk, hv⟩
    exact h ⟨v, rest, by rw [hk, kFunc], hv⟩
  · rfl

theorem gateModule_gate_closed (st : State) (kvs : List Value)
    (hB : st.moduleBlacklist.entries.length = 0) : gateModule st kvs = none := by
  unfold gateModule
  split
  · rw [if_neg]
    rintro ⟨h, _⟩
    exact h hB
  · rfl

theorem specAccepts_of_none (st : State) (l : Level) (kvs : List Value)
    (h : gateModule st kvs = none) :
    specAccepts st l kvs = decide (st.activeLogLevel ≤ l) := by
  simp [specAccepts, h]

theorem Output_eq_specAccepts (st : State) (l : Level) (msg : GoString) (kvs : List Value) :
    Output st l msg kvs =
      if specAccepts st l kvs = true then [⟨.Debugw, msg, kvs⟩] else [] := by
  by_cases hB : 0 < st.moduleBlacklist.entries.length
  · by_cases hq : ∃ v rest, kvs = .str kFunc :: .str v :: rest ∧ '.' ∈ v
    · obtain ⟨v, rest, rfl, hv⟩ := hq
      obtain ⟨m, sym, rfl, hm⟩ := split_at_first v '.' hv
      rw [Output_qualified st l msg m sym rest hm hB]
      simp only [specAccepts, gateModule_qualified st m sym rest hm hB]
      cases hb : st.moduleBlacklist.lookup m <;> cases hw : st.moduleWhitelist.lookup m <;>
        simp only [Option.some.injEq, exists_eq_left', false_and, exists_false, if_false,
          false_or, reduceCtorEq, ge_iff_le, Bool.not_false, Bool.true_and, Bool.false_or,
          Bool.and_eq_true, Bool.or_eq_true, Bool.not_eq_true', decide_eq_true_eq,
          decide_eq_false_iff_not] <;>
        split_ifs <;> first | rfl | (exfalso; dsimp only [Level] at *; omega)
    · rw [Output_unqualified st l msg kvs hq,
        specAccepts_of_none st l kvs (gateModule_unqualified st kvs hq)]
      simp
  · have h0 : st.moduleBlacklist.entries.length = 0 := by omega
    rw [Output_gate_closed st l msg kvs h0,
      specAccepts_of_none st l kvs (gateModule_gate_closed st kvs h0)]
    simp

/-- C18 (as stated, fails): `foo` is suppressed up to `Verbose` and
force-allowed from `Warn`, the threshold is `Error`; a `Debug` record of
`foo.Bar`, above the suppress level, is not emitted. -/
theorem both_tables_not_forced_below_allow_level :
    stFooBothTables.moduleBlacklist.lookup mFoo = some VerboseLevel ∧
    stFooBothTables.moduleWhitelist.lookup mFoo = some WarnLevel ∧
    VerboseLevel < DebugLevel ∧
    Output stFooBothTables DebugLevel msgHello
      [.str kFunc, .str (mFoo ++ '.' :: symBar)] = [] := by
  decide

/-- C18 (amended): `Output` makes exactly the one call `Log.Debugw(msg, attrs...)` when
the record is not suppressed through the gate and is force-allowed through
the gate or passes the threshold, and makes no call otherwise; a module in
both tables is force-allowed at the levels above its suppress level that
reach its force-allow level. -/
theorem Output_characterisation (st : State) (l : Level) (msg : GoString)
    (attrs : List Value) :
    (specAccepts st l attrs = true → Output st l msg attrs = [⟨.Debugw, msg, attrs⟩]) ∧
    (specAccepts st l attrs = false → Output st l msg attrs = []) ∧
    (∀ (m sym : GoString) (rest : List Value) (L L' : Level), '.' ∉ m →
      st.moduleBlacklist.lookup m = some L → st.moduleWhitelist.lookup m = some L' →
      L < l → L' ≤ l →
      Output st l msg (.str kFunc :: .str (m ++ '.' :: sym) :: rest) =
        [⟨.Debugw, msg, .str kFunc :: .str (m ++ '.' :: sym) :: rest⟩]) := by
  refine ⟨?_, ?_, ?_⟩
  · intro h
    rw [Output_eq_specAccepts, if_pos h]
  · intro h
    rw [Output_eq_specAccepts, if_neg (by simp [h])]
  · intro m sym rest L L' hm hB hW hL hL'
    have hne : 0 < st.moduleBlacklist.entries.length :=
      entries_length_pos_of_mem _ m (AList.lookup_isSome.1 (by rw [hB]; rfl))
    rw [Output_qualified st l msg m sym rest hm hne, if_neg, if_pos]
    · exact Or.inl ⟨L', hW, hL'⟩
    · rintro ⟨b, hb, hlb⟩
      rw [hB] at hb
      injection hb with hb
      subst hb
      exact absurd hL (not_lt.mpr hlb)

/-- C19: a record the filter accepts is handed to `Log` by exactly one call
`Log.Debugw(msg, attrs...)`, the method of zap's Debug severity, with the
message and the attribute sequence as they were passed, whatever level was
given; a rejected record causes no call. `Verbose`, `Debug`, `Success` and
`Info` do the same at their levels. -/
theorem filtered_calls_are_debugw (st : State) (l : Level) (msg : GoString)
    (kvs : List Value) :
    Output st l msg kvs =
      (if specAccepts st l kvs = true then [⟨.Debugw, msg, kvs⟩] else []) ∧
    Verbose st msg kvs =
      (if specAccepts st VerboseLevel kvs = true then [⟨.Debugw, msg, kvs⟩] else []) ∧
    Debug st msg kvs =
      (if specAccepts st DebugLevel kvs = true then [⟨.Debugw, msg, kvs⟩] else []) ∧
    Success st msg kvs =
      (if specAccepts st SuccessLevel kvs = true then [⟨.Debugw, msg, kvs⟩] else []) ∧
    Info st msg kvs =
      (if specAccepts st InfoLevel kvs = true then [⟨.Debugw, msg, kvs⟩] else []) ∧
    (∀ c ∈ Output st l msg kvs,
      c.method = .Debugw ∧ c.method.zapLevel = zapcoreDebugLevel ∧
      c.msg = msg ∧ c.keysAndValues = kvs) := by
  refine ⟨Output_eq_specAccepts st l msg kvs, Output_eq_specAccepts st _ msg kvs,
    Output_eq_specAccepts st _ msg kvs, Output_eq_specAccepts st _ msg kvs,
    Output_eq_specAccepts st _ msg kvs, ?_⟩
  intro c hc
  rw [Output_eq_specAccepts] at hc
  split_ifs at hc
  · have hc' : c = ⟨.Debugw, msg, kvs⟩ := by simpa using hc
    subst hc'
    exact ⟨rfl, rfl, rfl, rfl⟩
  · simp at hc

end Log
